import Mathlib

/-!
Verification of the application bootstrap / single-instance IPC layer of the
Code::Blocks fork (`src/src/app.cpp`).  Strings are modelled as `List Char`;
the wxString primitives used by the file (`Replace`, `find`, `substr`,
`Find(ch, fromEnd)`, `ToLong`) are embedded below, and each function of
`app.cpp` that the claims touch is translated into a Lean definition over
those primitives.
-/

/-- `matchesAt pat s` is true when `pat` is a prefix of `s`
(character-by-character comparison, as `wxString::compare` would do). -/
def matchesAt : List Char → List Char → Bool
  | [], _ => true
  | _ :: _, [] => false
  | p :: ps, x :: l => x == p && matchesAt ps l

/-- First character test: `headIs b s` is true when `s` starts with `b`. -/
def headIs (b : Char) : List Char → Bool
  | [] => false
  | y :: _ => y == b

/-- First two characters test. -/
def headIs2 (b c : Char) : List Char → Bool
  | y :: z :: _ => y == b && z == c
  | _ => false

/-- `noSub2 a b s` is true when the two-character sequence `a, b` occurs
nowhere in `s`. -/
def noSub2 (a b : Char) : List Char → Bool
  | [] => true
  | x :: l => !(x == a && headIs b l) && noSub2 a b l

/-- `noSub3 a b c s` is true when the three-character sequence `a, b, c`
occurs nowhere in `s`. -/
def noSub3 (a b c : Char) : List Char → Bool
  | [] => true
  | x :: l => !(x == a && headIs2 b c l) && noSub3 a b c l

/-- `wxFindAux pat s i` returns `some (i + k)` for the least `k` such that
`pat` occurs in `s` at offset `k`, and `none` if there is no occurrence.
This is `wxString::find(pat)` with `i` as the index of the head of `s`. -/
def wxFindAux (pat : List Char) : List Char → Nat → Option Nat
  | [], i => if matchesAt pat [] then some i else none
  | x :: l, i => if matchesAt pat (x :: l) then some i else wxFindAux pat l (i + 1)

/-- `wxString::find(pat, from)`: first occurrence of `pat` at or after
index `k`, as an absolute index. -/
def wxFindFrom (pat s : List Char) (k : Nat) : Option Nat :=
  (wxFindAux pat (s.drop k) 0).map (· + k)

/-- `wxString::substr(pos, count)`. -/
def wxSubstr (s : List Char) (pos len : Nat) : List Char :=
  (s.drop pos).take len

/-- Fuelled worker for `wxString::Replace`: scan left to right, replace each
occurrence of `pat` by `repl`, resume the scan after the replacement text
(occurrences are non-overlapping). -/
def wxReplaceFuel : Nat → List Char → List Char → List Char → List Char
  | 0, s, _, _ => s
  | _ + 1, [], _, _ => []
  | fuel + 1, x :: l, pat, repl =>
    if !pat.isEmpty && matchesAt pat (x :: l) then
      repl ++ wxReplaceFuel fuel (l.drop (pat.length - 1)) pat repl
    else
      x :: wxReplaceFuel fuel l pat repl

/-- `wxString::Replace(pat, repl)` (replace-all form). -/
def wxReplace (s pat repl : List Char) : List Char :=
  wxReplaceFuel s.length s pat repl

/-- Character-wise expansion: `expand f s` replaces every character `c` of
`s` by the block `f c`.  Used to characterise single-character / escaping
replacements. -/
def expand (f : Char → List Char) : List Char → List Char
  | [] => []
  | c :: l => f c ++ expand f l

-- ### Basic lemmas about the string primitives

theorem matchesAt_head_ne {p x : Char} (ps l : List Char) (h : (x == p) = false) :
    matchesAt (p :: ps) (x :: l) = false := by
  simp [matchesAt, h]

theorem matchesAt_append_self (p r : List Char) : matchesAt p (p ++ r) = true := by
  induction p with
  | nil => rfl
  | cons c cs ih => simp [matchesAt, ih]

theorem wxReplaceFuel_congr (pat repl : List Char) :
    ∀ (f₁ f₂ : Nat) (s : List Char), s.length ≤ f₁ → s.length ≤ f₂ →
      wxReplaceFuel f₁ s pat repl = wxReplaceFuel f₂ s pat repl := by
  intro f₁
  induction f₁ with
  | zero =>
    intro f₂ s h1 _
    have : s = [] := List.length_eq_zero.mp (Nat.le_zero.mp h1)
    subst this
    cases f₂ <;> rfl
  | succ f ih =>
    intro f₂ s h1 h2
    cases s with
    | nil => cases f₂ <;> rfl
    | cons x l =>
      cases f₂ with
      | zero => exact absurd h2 (by simp)
      | succ f' =>
        simp only [wxReplaceFuel]
        by_cases hm : (!pat.isEmpty && matchesAt pat (x :: l)) = true
        · simp only [hm, if_true]
          have hd : (l.drop (pat.length - 1)).length ≤ l.length := by
            simp [List.length_drop]
          refine congrArg _ (ih f' _ ?_ ?_)
          · exact le_trans hd (Nat.le_of_succ_le_succ h1)
          · exact le_trans hd (Nat.le_of_succ_le_succ h2)
        · simp only [Bool.not_eq_true] at hm
          simp only [hm, if_false]
          refine congrArg (List.cons x) (ih f' _ ?_ ?_)
          · exact Nat.le_of_succ_le_succ h1
          · exact Nat.le_of_succ_le_succ h2

theorem wxReplace_nil (pat repl : List Char) : wxReplace [] pat repl = [] := rfl

theorem wxReplace_cons (x : Char) (l pat repl : List Char) :
    wxReplace (x :: l) pat repl =
      if !pat.isEmpty && matchesAt pat (x :: l) then
        repl ++ wxReplace (l.drop (pat.length - 1)) pat repl
      else
        x :: wxReplace l pat repl := by
  unfold wxReplace
  simp only [List.length_cons, wxReplaceFuel]
  by_cases hm : (!pat.isEmpty && matchesAt pat (x :: l)) = true
  · simp only [hm, if_true]
    refine congrArg _ (wxReplaceFuel_congr pat repl _ _ _ ?_ le_rfl)
    simp [List.length_drop]
  · simp only [Bool.not_eq_true] at hm
    simp only [hm]
    simp

-- ### The DDE/IPC command-line message protocol (app.cpp lines 156-192, 684-696)

/-- The literal `"[CmdLine({"` (10 characters, `cbCountOf("[CmdLine({") - 1`). -/
def ddeCmdHeader : List Char := ['[', 'C', 'm', 'd', 'L', 'i', 'n', 'e', '(', '{']

/-- The literal `"})CWD({"` (7 characters, `cbCountOf("})CWD(\x7b") - 1`). -/
def ddeCwdSep : List Char := ['}', ')', 'C', 'W', 'D', '(', '{']

/-- The literal `"})]"`. -/
def ddeCloseTag : List Char := ['}', ')', ']']

/-- The literal `"[Raise]"`. -/
def ddeRaiseMsg : List Char := ['[', 'R', 'a', 'i', 's', 'e', ']']

/-- Sender-side escaping (app.cpp lines 693-694):
`cmdLine.Replace("(", "\\(");  cmdLine.Replace(")", "\\)");`. -/
def ddeEscape (s : List Char) : List Char :=
  wxReplace (wxReplace s ['('] ['\\', '(']) [')'] ['\\', ')']

/-- Receiver-side unescaping (app.cpp lines 167-168 and 174-175):
`.Replace("\\)", ")");  .Replace("\\(", "(");`. -/
def ddeUnescape (s : List Char) : List Char :=
  wxReplace (wxReplace s ['\\', ')'] [')']) ['\\', '('] ['(']

/-- The message sent to the running instance (app.cpp line 695):
`"[CmdLine({" + cmdLine + "})CWD({" + wxGetCwd() + "})]"` where `cmdLine`
has already been escaped.  Note that the working directory is *not*
escaped by the sender. -/
def ddeCmdLineMessage (cmd cwd : List Char) : List Char :=
  ddeCmdHeader ++ (ddeEscape cmd ++ (ddeCwdSep ++ (cwd ++ ddeCloseTag)))

/-- The `[CmdLine...]` branch of `DDEConnection::OnExecute` (app.cpp lines
156-177): find `"})CWD({"`, take the `cmdLine` payload between offset 10 and
that position and unescape it, then find `"})]"` starting 7 characters past
the separator and take the `cwd` payload in between, unescaping it as well.
Returns `none` when the message does not start with `"[CmdLine({"` (the
branch is not entered); unset payloads stay empty as in the code. -/
def ddeHandleCmdLine (strData : List Char) : Option (List Char × List Char) :=
  if matchesAt ddeCmdHeader strData then
    some (match wxFindAux ddeCwdSep strData 0 with
      | none => ([], [])
      | some posCwd =>
        let cmdLine := ddeUnescape (wxSubstr strData 10 (posCwd - 10))
        match wxFindFrom ddeCloseTag strData (posCwd + 7) with
        | none => (cmdLine, [])
        | some posEnd =>
          (cmdLine, ddeUnescape (wxSubstr strData (posCwd + 7) (posEnd - (posCwd + 7)))))
  else none

-- ### Characterisation of the escaping as a character-wise expansion

/-- Per-character effect of the sender's two `Replace` calls. -/
def escPair (c : Char) : List Char :=
  if c = '(' then ['\\', '('] else if c = ')' then ['\\', ')'] else [c]

/-- Per-character form after the receiver's first `Replace` (`"\\)"` → `")"`)
has been applied to an escaped string. -/
def unescPair1 (c : Char) : List Char :=
  if c = '(' then ['\\', '('] else [c]

theorem wxReplace_single (c0 : Char) (r : List Char) (s : List Char) :
    wxReplace s [c0] r = expand (fun d => if d = c0 then r else [d]) s := by
  induction s with
  | nil => rfl
  | cons x l ih =>
    rw [wxReplace_cons]
    by_cases hx : x = c0
    · subst hx
      simp [matchesAt, expand, ih]
    · have hb : (x == c0) = false := by simp [hx]
      simp [matchesAt, hb, expand, hx, ih]

theorem expand_append (f : Char → List Char) (u v : List Char) :
    expand f (u ++ v) = expand f u ++ expand f v := by
  induction u with
  | nil => rfl
  | cons x l ih => simp [expand, ih]

theorem ddeEscape_eq_expand (s : List Char) : ddeEscape s = expand escPair s := by
  unfold ddeEscape
  rw [wxReplace_single, wxReplace_single]
  induction s with
  | nil => rfl
  | cons c l ih =>
    simp only [expand, expand_append, ih]
    congr 1
    by_cases h1 : c = '('
    · subst h1; rfl
    · by_cases h2 : c = ')'
      · subst h2; rfl
      · simp [escPair, h1, h2, expand]

/-- An escaped string never starts with `')'`. -/
theorem expand_escPair_head (s : List Char) :
    headIs ')' (expand escPair s) = false := by
  cases s with
  | nil => rfl
  | cons c l =>
    by_cases h1 : c = '('
    · subst h1; rfl
    · by_cases h2 : c = ')'
      · subst h2; rfl
      · simp only [expand, escPair, h1, h2, if_false]
        simp [headIs, h2]

/-- An escaped string contains no `"})"`: every `')'` in it is preceded by
a backslash. -/
theorem expand_escPair_noSub2 (s : List Char) :
    noSub2 '}' ')' (expand escPair s) = true := by
  induction s with
  | nil => rfl
  | cons c l ih =>
    have hh := expand_escPair_head l
    by_cases h1 : c = '('
    · subst h1
      simp [expand, escPair, noSub2, headIs, ih, hh]
    · by_cases h2 : c = ')'
      · subst h2
        simp [expand, escPair, noSub2, headIs, ih, hh]
      · simp [expand, escPair, h1, h2, noSub2, ih, hh]

theorem matchesAt_single (b : Char) (l : List Char) : matchesAt [b] l = headIs b l := by
  cases l <;> simp [matchesAt, headIs]

theorem wxReplace_cons_match (x : Char) (l pat repl : List Char)
    (hne : pat.isEmpty = false) (h : matchesAt pat (x :: l) = true) :
    wxReplace (x :: l) pat repl = repl ++ wxReplace (l.drop (pat.length - 1)) pat repl := by
  rw [wxReplace_cons]
  simp [hne, h]

theorem wxReplace_cons_nomatch (x : Char) (l pat repl : List Char)
    (h : matchesAt pat (x :: l) = false) :
    wxReplace (x :: l) pat repl = x :: wxReplace l pat repl := by
  rw [wxReplace_cons]
  simp [h]

/-- The receiver's first `Replace` (`"\\)"` → `")"`) applied to an escaped
string removes exactly the backslashes that the sender put before `')'`. -/
theorem unesc1_expand (s : List Char) :
    wxReplace (expand escPair s) ['\\', ')'] [')'] = expand unescPair1 s := by
  induction s with
  | nil => rfl
  | cons c l ih =>
    by_cases h1 : c = '('
    · subst h1
      have e1 : expand escPair ('(' :: l) = '\\' :: '(' :: expand escPair l := rfl
      have e2 : expand unescPair1 ('(' :: l) = '\\' :: '(' :: expand unescPair1 l := rfl
      rw [e1, e2]
      rw [wxReplace_cons_nomatch _ _ _ _ (by simp [matchesAt])]
      rw [wxReplace_cons_nomatch _ _ _ _ (by simp [matchesAt])]
      rw [ih]
    · by_cases h2 : c = ')'
      · subst h2
        have e1 : expand escPair (')' :: l) = '\\' :: ')' :: expand escPair l := rfl
        have e2 : expand unescPair1 (')' :: l) = ')' :: expand unescPair1 l := rfl
        rw [e1, e2]
        rw [wxReplace_cons_match _ _ _ _ (by simp) (by simp [matchesAt])]
        simp only [List.length_cons, List.length_nil, List.drop_succ_cons, List.drop_zero]
        rw [ih]
        rfl
      · have e1 : expand escPair (c :: l) = c :: expand escPair l := by
          simp [expand, escPair, h1, h2]
        have e2 : expand unescPair1 (c :: l) = c :: expand unescPair1 l := by
          simp [expand, unescPair1, h1]
        rw [e1, e2]
        by_cases h3 : c = '\\'
        · subst h3
          rw [wxReplace_cons_nomatch _ _ _ _ (by
            simp [matchesAt, matchesAt_single, expand_escPair_head l])]
          rw [ih]
        · rw [wxReplace_cons_nomatch _ _ _ _ (by simp [matchesAt, h3])]
          rw [ih]

theorem expand_unescPair1_head (s : List Char) :
    headIs '(' (expand unescPair1 s) = false := by
  cases s with
  | nil => rfl
  | cons c l =>
    by_cases h1 : c = '('
    · subst h1; rfl
    · simp [expand, unescPair1, h1, headIs]

/-- The receiver's second `Replace` (`"\\("` → `"("`) recovers the original
string. -/
theorem unesc2_expand (s : List Char) :
    wxReplace (expand unescPair1 s) ['\\', '('] ['('] = s := by
  induction s with
  | nil => rfl
  | cons c l ih =>
    by_cases h1 : c = '('
    · subst h1
      have e1 : expand unescPair1 ('(' :: l) = '\\' :: '(' :: expand unescPair1 l := rfl
      rw [e1]
      rw [wxReplace_cons_match _ _ _ _ (by simp) (by simp [matchesAt])]
      simp only [List.length_cons, List.length_nil, List.drop_succ_cons, List.drop_zero]
      rw [ih]
      rfl
    · have e1 : expand unescPair1 (c :: l) = c :: expand unescPair1 l := by
        simp [expand, unescPair1, h1]
      rw [e1]
      by_cases h3 : c = '\\'
      · subst h3
        rw [wxReplace_cons_nomatch _ _ _ _ (by
          simp [matchesAt, matchesAt_single, expand_unescPair1_head l])]
        rw [ih]
      · rw [wxReplace_cons_nomatch _ _ _ _ (by simp [matchesAt, h3])]
        rw [ih]

/-- Round trip of the parenthesis escaping: unescaping an escaped command
line yields the original. -/
theorem ddeUnescape_ddeEscape (s : List Char) : ddeUnescape (ddeEscape s) = s := by
  unfold ddeUnescape
  rw [ddeEscape_eq_expand, unesc1_expand, unesc2_expand]

/-- `wxString::Replace` with a two-character pattern that does not occur in
the string is the identity. -/
theorem wxReplace_noSub2_id (a b : Char) (r : List Char) :
    ∀ s : List Char, noSub2 a b s = true → wxReplace s [a, b] r = s := by
  intro s
  induction s with
  | nil => intro _; rfl
  | cons x l ih =>
    intro h
    simp only [noSub2, Bool.and_eq_true, Bool.not_eq_true'] at h
    rw [wxReplace_cons_nomatch _ _ _ _ (by
      simp only [matchesAt, matchesAt_single]
      simpa using h.1)]
    rw [ih h.2]

/-- Unescaping a string containing neither `"\\)"` nor `"\\("` leaves it
unchanged. -/
theorem ddeUnescape_id (w : List Char) (h1 : noSub2 '\\' ')' w = true)
    (h2 : noSub2 '\\' '(' w = true) : ddeUnescape w = w := by
  unfold ddeUnescape
  rw [wxReplace_noSub2_id _ _ _ _ h1, wxReplace_noSub2_id _ _ _ _ h2]

theorem matchesAt_cons_headIs (p : Char) (ps l : List Char) (h : headIs p l = false) :
    matchesAt (p :: ps) l = false := by
  cases l with
  | nil => rfl
  | cons y t =>
    simp only [headIs] at h
    simp [matchesAt, h]

theorem findAux_here (pat v : List Char) (i : Nat) (h : matchesAt pat v = true) :
    wxFindAux pat v i = some i := by
  cases v <;> simp [wxFindAux, h]

theorem findAux_skip (pat : List Char) :
    ∀ (u v : List Char) (i : Nat),
      (∀ k, k < u.length → matchesAt pat ((u ++ v).drop k) = false) →
      wxFindAux pat (u ++ v) i = wxFindAux pat v (i + u.length) := by
  intro u
  induction u with
  | nil => intro v i _; simp
  | cons x u' ih =>
    intro v i h
    have h0 : matchesAt pat (x :: (u' ++ v)) = false := by
      simpa using h 0 (by simp)
    simp only [List.cons_append, wxFindAux, List.append_eq, h0, Bool.false_eq_true, if_false]
    rw [ih v (i + 1) (fun k hk => by
      simpa [List.drop_succ_cons] using h (k + 1) (by simpa using Nat.succ_lt_succ hk))]
    congr 1
    simp [List.length_cons]
    omega

/-- In a string with no `a, b` two-character subsequence, followed by a tail
not starting with `b`, no pattern starting `a, b` can match at any offset
inside the string. -/
theorem noOccur_two (a b : Char) (p : List Char) :
    ∀ (u v : List Char), noSub2 a b u = true → headIs b v = false →
      ∀ k, k < u.length → matchesAt (a :: b :: p) ((u ++ v).drop k) = false := by
  intro u
  induction u with
  | nil => intro v _ _ k hk; exact absurd hk (by simp)
  | cons x u' ih =>
    intro v hns hv k hk
    simp only [noSub2, Bool.and_eq_true, Bool.not_eq_true'] at hns
    cases k with
    | zero =>
      simp only [List.cons_append, List.drop_zero, matchesAt]
      by_cases hxa : (x == a) = true
      · have hb : headIs b (u' ++ v) = false := by
          cases u' with
          | nil => simpa using hv
          | cons y t =>
            rw [hxa, Bool.true_and] at hns
            simpa [headIs] using hns.1
        simp [matchesAt_cons_headIs b p _ hb]
      · simp only [Bool.not_eq_true] at hxa
        simp [hxa]
    | succ k =>
      simp only [List.cons_append, List.drop_succ_cons]
      exact ih v hns.2 hv k (by simpa using Nat.lt_of_succ_lt_succ hk)

/-- Same for a three-character pattern `a, b, c`: if it has no occurrence in
`u` and the tail `v` starts with neither `b` nor `c`, it cannot match at any
offset inside `u`. -/
theorem noOccur_three (a b c : Char) :
    ∀ (u v : List Char), noSub3 a b c u = true → headIs b v = false →
      headIs c v = false →
      ∀ k, k < u.length → matchesAt [a, b, c] ((u ++ v).drop k) = false := by
  intro u
  induction u with
  | nil => intro v _ _ _ k hk; exact absurd hk (by simp)
  | cons x u' ih =>
    intro v hns hb hc k hk
    simp only [noSub3, Bool.and_eq_true, Bool.not_eq_true'] at hns
    cases k with
    | zero =>
      simp only [List.cons_append, List.drop_zero, matchesAt]
      by_cases hxa : (x == a) = true
      · have : matchesAt [b, c] (u' ++ v) = false := by
          cases u' with
          | nil =>
            simpa using matchesAt_cons_headIs b [c] v hb
          | cons y t =>
            cases t with
            | nil =>
              simp only [List.cons_append, List.nil_append, matchesAt, matchesAt_single]
              simp [hc]
            | cons z t' =>
              rw [hxa, Bool.true_and] at hns
              have h2 : (y == b && z == c) = false := by
                simpa [headIs2] using hns.1
              simp only [List.cons_append, matchesAt]
              rcases Bool.and_eq_false_iff.mp h2 with h | h <;> simp [h]
        simp [matchesAt, this]
      · simp only [Bool.not_eq_true] at hxa
        simp [hxa]
    | succ k =>
      simp only [List.cons_append, List.drop_succ_cons]
      exact ih v hns.2 hb hc k (by simpa using Nat.lt_of_succ_lt_succ hk)

/-- The fixed `"[CmdLine({"` header contains no `'}'`, so prefixing it does
not create a `"})"` occurrence. -/
theorem noSub2_header (l : List Char) :
    noSub2 '}' ')' (ddeCmdHeader ++ l) = noSub2 '}' ')' l := by
  simp [ddeCmdHeader, noSub2, headIs]

/-- In the transmitted message the first occurrence of `"})CWD({"` is the
marker the sender wrote: escaping guarantees the escaped command line (and
the fixed header) contain no `"})"`. -/
theorem find_cwdSep_message (s w : List Char) :
    wxFindAux ddeCwdSep (ddeCmdLineMessage s w) 0 = some (10 + (ddeEscape s).length) := by
  have hmsg : ddeCmdLineMessage s w =
      (ddeCmdHeader ++ ddeEscape s) ++ (ddeCwdSep ++ (w ++ ddeCloseTag)) := by
    simp [ddeCmdLineMessage, List.append_assoc]
  rw [hmsg]
  have hns : noSub2 '}' ')' (ddeCmdHeader ++ ddeEscape s) = true := by
    rw [noSub2_header, ddeEscape_eq_expand]
    exact expand_escPair_noSub2 s
  have hv : headIs ')' (ddeCwdSep ++ (w ++ ddeCloseTag)) = false := rfl
  have hsep : ddeCwdSep = '}' :: ')' :: ['C', 'W', 'D', '(', '{'] := rfl
  rw [findAux_skip _ _ _ _ (fun k hk => by
    rw [hsep]
    exact noOccur_two '}' ')' ['C', 'W', 'D', '(', '{'] _ _ hns hv k hk)]
  rw [findAux_here _ _ _ (matchesAt_append_self _ _)]
  congr 1
  simp [ddeCmdHeader]
  omega

/-- Full receiver computation on a well-formed message: the command line
round-trips through the escaping; the working directory round-trips when it
contains none of `"})]"`, `"\\)"`, `"\\("`. -/
theorem ddeHandleCmdLine_message (s w : List Char)
    (hw3 : noSub3 '}' ')' ']' w = true)
    (hw1 : noSub2 '\\' ')' w = true) (hw2 : noSub2 '\\' '(' w = true) :
    ddeHandleCmdLine (ddeCmdLineMessage s w) = some (s, w) := by
  have hguard : matchesAt ddeCmdHeader (ddeCmdLineMessage s w) = true := by
    unfold ddeCmdLineMessage
    exact matchesAt_append_self _ _
  have hfind1 := find_cwdSep_message s w
  have hdrop10 : (ddeCmdLineMessage s w).drop 10 =
      ddeEscape s ++ (ddeCwdSep ++ (w ++ ddeCloseTag)) := by
    unfold ddeCmdLineMessage
    rw [show (10 : Nat) = ddeCmdHeader.length from rfl, List.drop_left]
  have hdrop17 : (ddeCmdLineMessage s w).drop (10 + (ddeEscape s).length + 7) =
      w ++ ddeCloseTag := by
    have hmsg : ddeCmdLineMessage s w =
        ((ddeCmdHeader ++ ddeEscape s) ++ ddeCwdSep) ++ (w ++ ddeCloseTag) := by
      simp [ddeCmdLineMessage, List.append_assoc]
    rw [hmsg]
    have hlen : ((ddeCmdHeader ++ ddeEscape s) ++ ddeCwdSep).length =
        10 + (ddeEscape s).length + 7 := by
      simp [ddeCmdHeader, ddeCwdSep]
      omega
    rw [← hlen, List.drop_left]
  have hfind2 : wxFindFrom ddeCloseTag (ddeCmdLineMessage s w)
      (10 + (ddeEscape s).length + 7) =
      some (w.length + (10 + (ddeEscape s).length + 7)) := by
    unfold wxFindFrom
    rw [hdrop17]
    have hb : headIs ')' ddeCloseTag = false := rfl
    have hc : headIs ']' ddeCloseTag = false := rfl
    have hct : ddeCloseTag = ['}', ')', ']'] := rfl
    rw [findAux_skip _ _ _ _ (fun k hk => by
      rw [hct]
      exact noOccur_three '}' ')' ']' _ _ hw3 hb hc k hk)]
    rw [findAux_here _ _ _ (by decide)]
    simp
  have e1 : wxSubstr (ddeCmdLineMessage s w) 10 (10 + (ddeEscape s).length - 10) =
      ddeEscape s := by
    unfold wxSubstr
    rw [Nat.add_sub_cancel_left, hdrop10]
    exact List.take_left _ _
  have e2 : wxSubstr (ddeCmdLineMessage s w) (10 + (ddeEscape s).length + 7)
      (w.length + (10 + (ddeEscape s).length + 7) - (10 + (ddeEscape s).length + 7)) =
      w := by
    unfold wxSubstr
    rw [Nat.add_sub_cancel, hdrop17]
    exact List.take_left _ _
  simp only [ddeHandleCmdLine, hguard, if_true, hfind1, hfind2, e1, e2,
    ddeUnescape_ddeEscape, ddeUnescape_id w hw1 hw2]

/-- The command-line payload always round-trips, whatever the cwd is. -/
theorem substr_cmdline (s w : List Char) :
    ddeUnescape (wxSubstr (ddeCmdLineMessage s w) 10 (10 + (ddeEscape s).length - 10)) =
      s := by
  have hdrop10 : (ddeCmdLineMessage s w).drop 10 =
      ddeEscape s ++ (ddeCwdSep ++ (w ++ ddeCloseTag)) := by
    unfold ddeCmdLineMessage
    rw [show (10 : Nat) = ddeCmdHeader.length from rfl, List.drop_left]
  unfold wxSubstr
  rw [Nat.add_sub_cancel_left, hdrop10, List.take_left, ddeUnescape_ddeEscape]

/-- C1 (amended): the `[CmdLine({...})CWD({...})]` round trip.  The cmdLine
payload is recovered exactly for every command line `s`; the cwd payload is
recovered exactly provided the (unescaped!) working directory contains none
of `"})]"`, `"\\)"`, `"\\("`. -/
theorem c1_cmdline_ipc_roundtrip (s w : List Char) :
    (∃ pr, ddeHandleCmdLine (ddeCmdLineMessage s w) = some pr ∧ pr.1 = s)
    ∧ (noSub3 '}' ')' ']' w = true → noSub2 '\\' ')' w = true →
       noSub2 '\\' '(' w = true →
       ddeHandleCmdLine (ddeCmdLineMessage s w) = some (s, w)) := by
  constructor
  · have hguard : matchesAt ddeCmdHeader (ddeCmdLineMessage s w) = true := by
      unfold ddeCmdLineMessage
      exact matchesAt_append_self _ _
    have hfind1 := find_cwdSep_message s w
    simp only [ddeHandleCmdLine, hguard, if_true, hfind1]
    cases hf : wxFindFrom ddeCloseTag (ddeCmdLineMessage s w)
        (10 + (ddeEscape s).length + 7) with
    | none => exact ⟨_, rfl, substr_cmdline s w⟩
    | some posEnd => exact ⟨_, rfl, substr_cmdline s w⟩
  · intro hw3 hw1 hw2
    exact ddeHandleCmdLine_message s w hw3 hw1 hw2

/-- Witness for `c1_cmdline_ipc_roundtrip` at a concrete input. -/
theorem c1_cmdline_ipc_roundtrip_witness :
    ddeHandleCmdLine (ddeCmdLineMessage ['(', 'a'] ['/', 't', 'm', 'p']) =
      some (['(', 'a'], ['/', 't', 'm', 'p']) :=
  (c1_cmdline_ipc_roundtrip ['(', 'a'] ['/', 't', 'm', 'p']).2
    (by decide) (by decide) (by decide)

/-- C1 counterexample: for the working directory `"\\)"` (which the sender
does *not* escape) the receiver unescapes it anyway and extracts `")"`, so
the claimed round trip fails as stated for arbitrary `w`. -/
theorem c1_cwd_not_recovered :
    ddeHandleCmdLine (ddeCmdLineMessage ['a'] ['\\', ')']) = some (['a'], [')'])
    ∧ ddeHandleCmdLine (ddeCmdLineMessage ['a'] ['\\', ')']) ≠
        some (['a'], ['\\', ')']) := by
  constructor
  · decide
  · decide

-- ### OnInit single-instance / DDE negotiation (app.cpp lines 672-714)

/-- Observable side effects of the DDE negotiation block of `OnInit`. -/
inductive DDEAction where
  | execute (msg : List Char)
  | disconnect
  | deleteConnection
  | deleteClient
deriving DecidableEq, Repr

/-- Result of the negotiation block: the actions performed, in order, and
whether `OnInit` returns `false` right here (ending the process). -/
structure DDEOutcome where
  actions : List DDEAction
  endsApp : Bool
deriving DecidableEq, Repr

/-- `for (int i = 1; i < argc; ++i) cmdLine += wxString(argv[i]) + ' ';`
(app.cpp lines 687-688): the forwarded command line is the tail arguments
each followed by one space. -/
def joinArgs (args : List (List Char)) : List Char :=
  args.foldl (fun acc a => acc ++ a ++ [' ']) []

/-- The DDE negotiation block of `CodeBlocksApp::OnInit` (app.cpp lines
672-714).  Inputs: the `m_DDE` and `m_Batch` flags, the
`/environment/use_ipc` and `/environment/raise_via_ipc` config reads,
whether `MakeConnection` succeeded, and the command-line tail `argv[1..]`
with the current working directory.  The wx connection itself is external;
its success is the `connected` input. -/
def ddeNegotiation (dde batch useIpc connected : Bool)
    (args : List (List Char)) (cwd : List Char) (raiseViaIpc : Bool) : DDEOutcome :=
  if dde && !batch && useIpc then
    if connected then
      let cmdLine := joinArgs args
      { actions :=
          (if !cmdLine.isEmpty then [DDEAction.execute (ddeCmdLineMessage cmdLine cwd)]
           else [])
          ++ (if raiseViaIpc then [DDEAction.execute ddeRaiseMsg] else [])
          ++ [DDEAction.disconnect, DDEAction.deleteConnection, DDEAction.deleteClient]
        endsApp := true }
    else
      { actions := [DDEAction.deleteClient], endsApp := false }
  else
    { actions := [], endsApp := false }

theorem joinArgs_cons_ne_nil (a : List Char) (rest : List (List Char)) :
    (joinArgs (a :: rest)).isEmpty = false := by
  have h : ∀ (args : List (List Char)) (acc : List Char),
      acc.length ≤ (List.foldl (fun acc a => acc ++ a ++ [' ']) acc args).length := by
    intro args
    induction args with
    | nil => intro _; exact le_rfl
    | cons b args ih =>
      intro acc
      calc acc.length ≤ (acc ++ b ++ [' ']).length := by simp
        _ ≤ _ := ih _
  have h2 : 0 < (joinArgs (a :: rest)).length := by
    unfold joinArgs
    have hh := h rest ([] ++ a ++ [' '])
    simp only [List.foldl_cons]
    simp only [List.nil_append, List.length_append, List.length_cons,
      List.length_nil] at hh ⊢
    omega
  cases hk : joinArgs (a :: rest) with
  | nil => rw [hk] at h2; simp at h2
  | cons x xs => rfl

/-- C2: single-instance negotiation.  With DDE/IPC on and batch off: if the
connection to a running instance succeeds, the full command line plus cwd is
forwarded (when there are arguments), optionally `[Raise]` is sent, the
connection is dropped and `OnInit` ends the process; if the connection
fails, only the client object is freed and startup proceeds. -/
theorem c2_single_instance_negotiation (args : List (List Char)) (a : List Char)
    (rest : List (List Char)) (cwd : List Char) (raiseIpc : Bool) :
    ((ddeNegotiation true false true true args cwd raiseIpc).endsApp = true)
    ∧ (DDEAction.disconnect ∈ (ddeNegotiation true false true true args cwd raiseIpc).actions)
    ∧ (DDEAction.deleteConnection ∈ (ddeNegotiation true false true true args cwd raiseIpc).actions)
    ∧ (DDEAction.deleteClient ∈ (ddeNegotiation true false true true args cwd raiseIpc).actions)
    ∧ (DDEAction.execute (ddeCmdLineMessage (joinArgs (a :: rest)) cwd) ∈
        (ddeNegotiation true false true true (a :: rest) cwd raiseIpc).actions)
    ∧ (DDEAction.execute ddeRaiseMsg ∈
        (ddeNegotiation true false true true args cwd true).actions)
    ∧ (ddeNegotiation true false true false args cwd raiseIpc =
        { actions := [DDEAction.deleteClient], endsApp := false }) := by
  refine ⟨rfl, ?_, ?_, ?_, ?_, ?_, rfl⟩
  · simp [ddeNegotiation]
  · simp [ddeNegotiation]
  · simp [ddeNegotiation]
  · simp [ddeNegotiation, joinArgs_cons_ne_nil]
  · simp [ddeNegotiation]

-- ### CodeBlocksApp::AttachDebugger (app.cpp lines 1349-1445)

/-- A loaded debugger plugin as `AttachDebugger` sees it: its settings name
(`GetSettingsName()`) and the names of its configurations, in registration
order. -/
structure DbgPlugin where
  settingsName : List Char
  configNames : List (List Char)
deriving DecidableEq, Repr

/-- The `for (const auto &info : debuggers)` search: first plugin whose
settings name equals `name`. -/
def findPlugin (name : List Char) : List DbgPlugin → Option DbgPlugin
  | [] => none
  | p :: rest => if p.settingsName = name then some p else findPlugin name rest

/-- The config search with `std::distance`: index of the first configuration
whose name equals `name`. -/
def findCfgIdx (name : List Char) : List (List Char) → Option Nat
  | [] => none
  | c :: rest => if c = name then some 0 else (findCfgIdx name rest).map (· + 1)

/-- `CodeBlocksApp::AttachDebugger` (app.cpp lines 1349-1445), as a function
of the saved `--dbg-attach` / `--dbg-config` values and the loaded debugger
plugins.  The result is (whether `LogError` was called, the attach action
performed: plugin, `SetActiveConfig` index, `AttachToProcess` argument).
The function always returns normally; all failure paths log an error and
attach nothing, except when both options are absent (silent early return). -/
def attachDebugger (localAttach localConfig : List Char)
    (debuggers : List DbgPlugin) : Bool × Option (DbgPlugin × Nat × List Char) :=
  if localAttach.isEmpty || localConfig.isEmpty then
    (localAttach.isEmpty != localConfig.isEmpty, none)
  else
    match wxFindAux [':'] localConfig 0 with
    | none => (true, none)
    | some pos =>
      if pos = 0 then (true, none)
      else
        let pluginName := localConfig.take pos
        let configName := localConfig.drop (pos + 1)
        if debuggers.isEmpty then (true, none)
        else
          match findPlugin pluginName debuggers with
          | none => (true, none)
          | some plugin =>
            match findCfgIdx configName plugin.configNames with
            | none => (true, none)
            | some idx => (false, some (plugin, idx, localAttach))

theorem findCfgIdx_isSome_iff (name : List Char) (l : List (List Char)) :
    (findCfgIdx name l).isSome = true ↔ name ∈ l := by
  induction l with
  | nil => simp [findCfgIdx]
  | cons c rest ih =>
    by_cases h : c = name
    · subst h; simp [findCfgIdx]
    · simp [findCfgIdx, h, Option.isSome_map, ih, Ne.symm h]

/-- C3: `AttachDebugger` splits `--dbg-config` at the first `':'` and
attaches exactly when both options are present, the delimiter sits at a
positive position, a loaded plugin matches the plugin-name part and one of
its configurations matches the config-name part.  The attach action passes
the `--dbg-attach` string, and an error is logged precisely on the failure
paths (never when both options were simply absent); the function returns
normally in every case. -/
theorem c3_attach_debugger_conditions (a c : List Char) (ds : List DbgPlugin) :
    ((attachDebugger a c ds).2.isSome = true ↔
      (a.isEmpty = false ∧ c.isEmpty = false ∧
        ∃ pos p, wxFindAux [':'] c 0 = some pos ∧ 0 < pos ∧
          findPlugin (c.take pos) ds = some p ∧ c.drop (pos + 1) ∈ p.configNames))
    ∧ (∀ p i s2, (attachDebugger a c ds).2 = some (p, i, s2) → s2 = a)
    ∧ ((attachDebugger a c ds).1 = true ↔
        ((attachDebugger a c ds).2 = none
          ∧ ¬(a.isEmpty = true ∧ c.isEmpty = true))) := by
  unfold attachDebugger
  by_cases h1 : (a.isEmpty || c.isEmpty) = true
  · cases ha : a.isEmpty <;> cases hc : c.isEmpty <;> simp_all
  · have h1' : (a.isEmpty || c.isEmpty) = false := by simpa using h1
    have hna : a.isEmpty = false := (Bool.or_eq_false_iff.mp h1').1
    have hnc : c.isEmpty = false := (Bool.or_eq_false_iff.mp h1').2
    simp only [h1', Bool.false_eq_true, if_false]
    cases hf : wxFindAux [':'] c 0 with
    | none => simp [hf, hna, hnc]
    | some pos =>
      by_cases hp : pos = 0
      · subst hp
        simp [hf, hna, hnc]
      · simp only [hp, if_false]
        by_cases hds : ds.isEmpty = true
        · have hds' : ds = [] := by simpa using hds
          subst hds'
          simp [hf, hna, hnc, hp, findPlugin]
        · have hds' : ds.isEmpty = false := by simpa using hds
          simp only [hds', Bool.false_eq_true, if_false]
          cases hfp : findPlugin (c.take pos) ds with
          | none => simp [hf, hna, hnc, hp, hfp]
          | some plugin =>
            cases hci : findCfgIdx (c.drop (pos + 1)) plugin.configNames with
            | none =>
              have hmem : ¬(c.drop (pos + 1) ∈ plugin.configNames) := by
                rw [← findCfgIdx_isSome_iff, hci]
                simp
              simp [hf, hna, hnc, hp, hfp, hci, hmem]
            | some idx =>
              have hmem : c.drop (pos + 1) ∈ plugin.configNames := by
                rw [← findCfgIdx_isSome_iff, hci]
                rfl
              refine ⟨?_, ?_, ?_⟩
              · simp only [hfp, hci]
                simp only [Option.isSome_some, true_iff]
                exact ⟨hna, hnc, pos, plugin, rfl, Nat.pos_of_ne_zero hp, hfp, hmem⟩
              · intro p i s2 h
                simp only [hfp, hci] at h
                exact (congrArg (fun t => t.2.2) (Option.some.inj h)).symm
              · simp [hfp, hci]

/-- Witness for `c3_attach_debugger_conditions`: with plugin `"gdb"` holding
configuration `"default"`, `--dbg-attach=pid --dbg-config=gdb:default`
attaches. -/
theorem c3_attach_debugger_conditions_witness :
    (attachDebugger ['p', 'i', 'd'] ['g', 'd', 'b', ':', 'd', 'e', 'f']
      [⟨['g', 'd', 'b'], [['d', 'e', 'f']]⟩]).2.isSome = true :=
  (c3_attach_debugger_conditions ['p', 'i', 'd'] ['g', 'd', 'b', ':', 'd', 'e', 'f']
      [⟨['g', 'd', 'b'], [['d', 'e', 'f']]⟩]).1.mpr
    ⟨by decide, by decide,
      3, ⟨['g', 'd', 'b'], [['d', 'e', 'f']]⟩, by decide, by decide, by decide, by decide⟩

-- ### --file parsing in CodeBlocksApp::LoadDelayedFiles (app.cpp lines 1306-1346)

/-- `wxString::Find(ch, fromEnd = true)`: index of the last occurrence. -/
def findLast (c : Char) : List Char → Option Nat
  | [] => none
  | x :: t =>
    match findLast c t with
    | some i => some (i + 1)
    | none => if x == c then some 0 else none

/-- The whitespace characters `strtol` skips. -/
def isSpaceCh (c : Char) : Bool :=
  c = ' ' || c = '\t' || c = '\n' || c = '\x0b' || c = '\x0c' || c = '\r'

/-- Digit run of `strtol`: all remaining characters must be decimal digits. -/
def parseDigitsAux : List Char → Nat → Option Nat
  | [], acc => some acc
  | c :: t, acc =>
    if c.isDigit then parseDigitsAux t (10 * acc + (c.toNat - 48)) else none

/-- The bounds of the C `long` that `wxString::ToLong` stores into (32 bits
on this fork's Windows/MSW target): outside `[-2147483648, 2147483647]`
`strtol` sets `ERANGE` and `ToLong` returns false. -/
def inLongRange (v : Int) : Bool :=
  -2147483648 ≤ v && v ≤ 2147483647

/-- `wxString::ToLong` (black-box model of the toolkit, per its documented
behaviour: optional leading whitespace, optional sign, a non-empty digit
run consuming the whole string, and a value within the range of C `long`;
on failure — including `ERANGE` overflow — no value is produced). -/
def toLong (s : List Char) : Option Int :=
  match s.dropWhile isSpaceCh with
  | [] => none
  | c :: rest =>
    if c = '-' then
      match rest with
      | [] => none
      | _ :: _ => (parseDigitsAux rest 0).bind (fun n =>
          if inLongRange (-(n : Int)) then some (-(n : Int)) else none)
    else if c = '+' then
      match rest with
      | [] => none
      | _ :: _ => (parseDigitsAux rest 0).bind (fun n =>
          if inLongRange (n : Int) then some (n : Int) else none)
    else (parseDigitsAux (c :: rest) 0).bind (fun n =>
        if inLongRange (n : Int) then some (n : Int) else none)

/-- The `--file foo.cpp[:line]` block of `LoadDelayedFiles` (app.cpp lines
1306-1346).  Returns `none` when nothing is opened (empty `m_AutoFile`, or
an empty file part), otherwise `some (filePart, gotoTarget)` where
`gotoTarget = some (line - 1)` exactly when a line number distinct from the
`-1` sentinel was parsed.  `wxFileName::Normalize` on the opened path is an
external filesystem operation and is not modelled; the opened path is
represented by the file part itself. -/
def loadAutoFileAction (autoFile : List Char) : Option (List Char × Option Int) :=
  if autoFile.isEmpty then none
  else
    let fl : List Char × Int :=
      match findLast ':' autoFile with
      | none => (autoFile, -1)
      | some pos =>
        match toLong (autoFile.drop (pos + 1)) with
        | some n => (autoFile.take pos, n)
        | none => (autoFile, -1)
    if fl.1.isEmpty then none
    else some (fl.1, if fl.2 ≠ -1 then some (fl.2 - 1) else none)

/-- C4 (amended): the `--file` value is split at its *last* colon; a parsed
line number `n` (other than the sentinel `-1`) opens the prefix and jumps to
line `n - 1`, provided the prefix is non-empty; a suffix that is not a
number makes the whole value the file name with no jump, and so does a
missing colon. -/
theorem c4_autofile_split (v : List Char) (hv : v ≠ []) :
    (∀ pos n, findLast ':' v = some pos → toLong (v.drop (pos + 1)) = some n →
      v.take pos ≠ [] → n ≠ -1 →
      loadAutoFileAction v = some (v.take pos, some (n - 1)))
    ∧ (∀ pos, findLast ':' v = some pos → toLong (v.drop (pos + 1)) = none →
      loadAutoFileAction v = some (v, none))
    ∧ (findLast ':' v = none → loadAutoFileAction v = some (v, none)) := by
  have hne : v.isEmpty = false := by
    cases v with
    | nil => exact absurd rfl hv
    | cons x t => rfl
  refine ⟨?_, ?_, ?_⟩
  · intro pos n h1 h2 h3 h4
    have h3' : (v.take pos).isEmpty = false := by
      cases htk : v.take pos with
      | nil => exact absurd htk h3
      | cons x t => rfl
    simp [loadAutoFileAction, hne, h1, h2, h3', h4]
  · intro pos h1 h2
    simp [loadAutoFileAction, hne, h1, h2]
  · intro h1
    simp [loadAutoFileAction, hne, h1]

/-- Witness for `c4_autofile_split`: `--file=a:5` opens `a` and jumps to
line 4 (zero-based). -/
theorem c4_autofile_split_witness :
    loadAutoFileAction ['a', ':', '5'] = some (['a'], some 4) :=
  (c4_autofile_split ['a', ':', '5'] (by decide)).1 1 5
    (by decide) (by decide) (by decide) (by decide)

/-- C4 counterexample: for the non-empty value `":5"` the suffix parses as
the integer 5, yet nothing at all is opened (the file part is empty), so
"the file is opened in both cases" fails as stated for every non-empty
value. -/
theorem c4_autofile_empty_prefix_not_opened :
    loadAutoFileAction [':', '5'] = none
    ∧ loadAutoFileAction [':', '5'] ≠ some ([], some 4) := by
  constructor
  · decide
  · decide

-- ### Batch-mode exit status (app.cpp lines 865-884, 914-921, 1071-1106)

/-- The state relevant to the batch exit status: the `m_Batch` flag, the
`m_BatchExitCode` member (initialised to 0 in `OnInit`), and the
function-local `static bool one_time_only` of `OnBatchBuildDone`. -/
structure BatchState where
  batch : Bool
  batchExitCode : Int
  oneTimeOnly : Bool
deriving DecidableEq, Repr

/-- State after the initialisation in `OnInit` (lines 601-602) for a given
batch flag. -/
def initBatchState (batch : Bool) : BatchState :=
  { batch := batch, batchExitCode := 0, oneTimeOnly := false }

/-- `CodeBlocksApp::OnBatchBuildDone` (lines 1071-1106): ignore the event
unless in batch mode and not yet handled; otherwise latch `one_time_only`
and store the compiler plugin's exit code. -/
def onBatchBuildDone (st : BatchState) (compilerExitCode : Int) : BatchState :=
  if !st.batch || st.oneTimeOnly then st
  else { batch := st.batch, batchExitCode := compilerExitCode, oneTimeOnly := true }

/-- A run of `cbEVT_COMPILER_FINISHED` events, in order. -/
def runCompilerFinished (st : BatchState) (codes : List Int) : BatchState :=
  codes.foldl onBatchBuildDone st

/-- `CodeBlocksApp::OnExit` return value (line 883):
`return m_Batch ? m_BatchExitCode : 0;`. -/
def onExitResult (st : BatchState) : Int :=
  if st.batch then st.batchExitCode else 0

/-- `CodeBlocksApp::OnRun` return value on the normal path (lines 919-921):
`return m_Batch ? m_BatchExitCode : retval;`. -/
def onRunResult (st : BatchState) (wxRunRetval : Int) : Int :=
  if st.batch then st.batchExitCode else wxRunRetval

theorem runCompilerFinished_latched (codes : List Int) :
    ∀ st : BatchState, st.oneTimeOnly = true → runCompilerFinished st codes = st := by
  induction codes with
  | nil => intro st _; rfl
  | cons e rest ih =>
    intro st h
    unfold runCompilerFinished
    simp only [List.foldl_cons]
    have : onBatchBuildDone st e = st := by
      unfold onBatchBuildDone
      simp [h]
    rw [this]
    exact ih st h

/-- C5: in batch mode the first compiler-finished event fixes the batch exit
code and later events do not change it; `OnExit` and `OnRun` both return it.
Outside batch mode the events are ignored and `OnExit` returns 0, `OnRun`
the wx event-loop value. -/
theorem c5_batch_exit_code (e : Int) (rest codes : List Int) (r : Int) :
    ((runCompilerFinished (initBatchState true) (e :: rest)).batchExitCode = e)
    ∧ (onExitResult (runCompilerFinished (initBatchState true) (e :: rest)) = e)
    ∧ (onRunResult (runCompilerFinished (initBatchState true) (e :: rest)) r = e)
    ∧ (onExitResult (runCompilerFinished (initBatchState false) codes) = 0)
    ∧ (onRunResult (runCompilerFinished (initBatchState false) codes) r = r) := by
  have hfirst : runCompilerFinished (initBatchState true) (e :: rest) =
      { batch := true, batchExitCode := e, oneTimeOnly := true } := by
    unfold runCompilerFinished
    simp only [List.foldl_cons]
    have h1 : onBatchBuildDone (initBatchState true) e =
        { batch := true, batchExitCode := e, oneTimeOnly := true } := rfl
    rw [h1]
    exact runCompilerFinished_latched rest _ rfl
  have hnb : runCompilerFinished (initBatchState false) codes =
      initBatchState false := by
    induction codes with
    | nil => rfl
    | cons x xs ih =>
      unfold runCompilerFinished at ih ⊢
      simp only [List.foldl_cons]
      have : onBatchBuildDone (initBatchState false) x = initBatchState false := rfl
      rw [this]
      exact ih
  refine ⟨?_, ?_, ?_, ?_, ?_⟩
  · rw [hfirst]
  · rw [hfirst]; rfl
  · rw [hfirst]; rfl
  · rw [hnb]; rfl
  · rw [hnb]; rfl

-- ### Data-directory resolution in CodeBlocksApp::LoadConfig (lines 361-419)

/-- The literal `"/share/codeblocks"`. -/
def shareSuffix : List Char :=
  ['/', 's', 'h', 'a', 'r', 'e', '/', 'c', 'o', 'd', 'e', 'b', 'l', 'o', 'c', 'k', 's']

/-- The data-path computation of `LoadConfig` (app.cpp lines 374-413):
start from the platform-dependent builtin base, override it with `--prefix`
when given, otherwise with a non-empty `CODEBLOCKS_DATA_DIR` environment
value; append `"/share/codeblocks"`; make the result absolute if it is
relative.  `wxFileName::IsRelative`/`MakeAbsolute` are filesystem-dependent
and passed in as parameters; the returned value is what is written to the
`"data_path"` configuration key. -/
def loadConfigDataPath (builtinData mPrefix env : List Char)
    (isRelative : List Char → Bool) (makeAbsolute : List Char → List Char) :
    List Char :=
  let data0 := builtinData
  let data1 := if !mPrefix.isEmpty then mPrefix
               else if !env.isEmpty then env else data0
  let data2 := data1 ++ shareSuffix
  if isRelative data2 then makeAbsolute data2 else data2

/-- C6: precedence of the data-dir override.  The value written to
`"data_path"` is the chosen base (`--prefix` first, else the environment
variable, else the builtin default) with `"/share/codeblocks"` appended,
made absolute when relative; in particular with `--prefix` given the
environment variable is ignored. -/
theorem c6_data_dir_precedence (builtinData mPrefix env : List Char)
    (isRelative : List Char → Bool) (makeAbsolute : List Char → List Char) :
    (loadConfigDataPath builtinData mPrefix env isRelative makeAbsolute =
      (let base := (if mPrefix ≠ [] then mPrefix
                    else if env ≠ [] then env else builtinData) ++ shareSuffix
       if isRelative base then makeAbsolute base else base))
    ∧ (mPrefix ≠ [] → ∀ env' : List Char,
        loadConfigDataPath builtinData mPrefix env' isRelative makeAbsolute =
        loadConfigDataPath builtinData mPrefix env isRelative makeAbsolute) := by
  constructor
  · unfold loadConfigDataPath
    cases mPrefix with
    | nil => cases env with
      | nil => simp
      | cons e es => simp
    | cons p ps => simp
  · intro hp env'
    unfold loadConfigDataPath
    have hp' : mPrefix.isEmpty = false := by
      cases mPrefix with
      | nil => exact absurd rfl hp
      | cons x t => rfl
    simp [hp']

/-- Witness for `c6_data_dir_precedence`: with `--prefix=/p` the environment
value `/e` is ignored. -/
theorem c6_data_dir_precedence_witness :
    loadConfigDataPath ['/', 'b'] ['/', 'p'] ['/', 'e'] (fun _ => false) id =
    loadConfigDataPath ['/', 'b'] ['/', 'p'] [] (fun _ => false) id :=
  (c6_data_dir_precedence ['/', 'b'] ['/', 'p'] [] (fun _ => false) id).2
    (by decide) ['/', 'e']

-- ### Top-level exception handling in OnInit (app.cpp lines 640-863)

/-- The exceptions the `try` block of `OnInit` can catch: a `cbException`,
a C-string exception, or anything else. -/
inductive InitException where
  | cbEx (msg : List Char)
  | charEx (msg : List Char)
  | unknownEx
deriving DecidableEq, Repr

/-- How a caught exception is reported to the user. -/
inductive InitReport where
  | showErrorMessage (msg : List Char)
  | safeShowMessage (msg : List Char)
deriving DecidableEq, Repr

/-- The catch clauses of `OnInit` (app.cpp lines 849-862): the body either
returns a boolean or throws; every exception is mapped to a user report and
the overall result `false`.  The returned pair is
(`OnInit` result, report shown if any). -/
def onInitGuard (body : Except InitException Bool) : Bool × Option InitReport :=
  match body with
  | .ok b => (b, none)
  | .error (.cbEx m) => (false, some (.showErrorMessage m))
  | .error (.charEx m) => (false, some (.safeShowMessage m))
  | .error .unknownEx =>
    (false, some (.safeShowMessage
      ['U', 'n', 'k', 'n', 'o', 'w', 'n', ' ', 'e', 'x', 'c', 'e', 'p', 't', 'i', 'o', 'n']))

/-- C7: any exception escaping the initialisation sequence is reported and
makes `OnInit` return `false`; no exception propagates (the guard is a total
function into a result pair). -/
theorem c7_oninit_catches_all (e : InitException) (body : Except InitException Bool) :
    ((onInitGuard (.error e)).1 = false)
    ∧ ((onInitGuard (.error e)).2.isSome = true)
    ∧ ((onInitGuard body).1 = true ↔ body = .ok true) := by
  refine ⟨?_, ?_, ?_, ?_⟩
  · cases e <;> rfl
  · cases e <;> rfl
  · intro h
    cases body with
    | ok b =>
      cases b with
      | true => rfl
      | false => exact absurd h (by simp [onInitGuard])
    | error e' => cases e' <;> exact absurd h (by simp [onInitGuard])
  · intro h
    subst h
    rfl

-- ### The parameter loop of ParseCmdLine with a handler frame (lines 1166-1225)

/-- What `FileTypeOf(strParam)` reports for a positional parameter:
a Code::Blocks project, a workspace, or anything else. -/
inductive ParamFileType where
  | project
  | workspace
  | other
deriving DecidableEq, Repr

/-- A positional command-line parameter as the loop sees it: its normalized
full path (`wxFileName::Normalize` is external), its `FileTypeOf`
classification, and whether `wxFile::Exists` holds for the full path. -/
structure CmdParam where
  path : List Char
  ft : ParamFileType
  onDisk : Bool
deriving DecidableEq, Repr

/-- The `for (int param = 0; param < count; ++param)` loop of
`ParseCmdLine` (app.cpp lines 1191-1221) over the delayed-open queue
`m_DelayedFilesToOpen` and the `m_HasProject` / `m_HasWorkSpace` flags:
projects are queued and set the project flag; the first workspace clears
the queue, becomes its only element, sets the workspace flag and stops the
loop (`break`); other parameters are queued when they exist on disk.
Returns (queue, hasProject, hasWorkspace). -/
def processParams : List CmdParam → List (List Char) → Bool → Bool →
    List (List Char) × Bool × Bool
  | [], queue, hasProj, hasWS => (queue, hasProj, hasWS)
  | p :: rest, queue, hasProj, hasWS =>
    if p.ft = ParamFileType.project then
      processParams rest (queue ++ [p.path]) true hasWS
    else if p.ft = ParamFileType.workspace then
      ([p.path], hasProj, true)
    else if p.onDisk then
      processParams rest (queue ++ [p.path]) hasProj hasWS
    else
      processParams rest queue hasProj hasWS

/-- `m_Batch = m_HasProject || m_HasWorkSpace;`
`m_Batch = m_Batch && (m_Build || m_ReBuild || m_Clean);`
(app.cpp lines 1224-1225), after the parameter loop has run with the
handler frame (the loop starts from `m_HasProject = m_HasWorkSpace = false`,
lines 1168-1169). -/
def parseCmdLineBatch (params : List CmdParam) (build rebuild clean : Bool) : Bool :=
  let r := processParams params [] false false
  (r.2.1 || r.2.2) && (build || rebuild || clean)

/-- C8: the first workspace parameter wipes the queue, becomes its only
element, sets the workspace flag, and everything after it is ignored. -/
theorem c8_workspace_wins (a : List CmdParam) (w : CmdParam) (b b' : List CmdParam)
    (queue : List (List Char)) (hasProj : Bool)
    (ha : ∀ p ∈ a, p.ft ≠ ParamFileType.workspace)
    (hw : w.ft = ParamFileType.workspace) :
    ((processParams (a ++ w :: b) queue hasProj false).1 = [w.path])
    ∧ ((processParams (a ++ w :: b) queue hasProj false).2.2 = true)
    ∧ (processParams (a ++ w :: b) queue hasProj false =
        processParams (a ++ w :: b') queue hasProj false) := by
  induction a generalizing queue hasProj with
  | nil =>
    have hnp : w.ft ≠ ParamFileType.project := by rw [hw]; intro h; cases h
    refine ⟨?_, ?_, ?_⟩ <;> simp [processParams, hnp, hw]
  | cons p a ih =>
    have hp : p.ft ≠ ParamFileType.workspace := ha p (by simp)
    have ha' : ∀ q ∈ a, q.ft ≠ ParamFileType.workspace := fun q hq => ha q (by simp [hq])
    by_cases h1 : p.ft = ParamFileType.project
    · simpa [processParams, h1] using ih (queue ++ [p.path]) true ha'
    · by_cases h2 : p.onDisk = true
      · simpa [processParams, h1, hp, h2] using ih (queue ++ [p.path]) hasProj ha'
      · simpa [processParams, h1, hp, h2] using ih queue hasProj ha'

/-- Witness for `c8_workspace_wins` at a concrete command line: a project
then a workspace leaves only the workspace queued. -/
theorem c8_workspace_wins_witness :
    (processParams [⟨['p'], ParamFileType.project, true⟩,
        ⟨['w'], ParamFileType.workspace, true⟩,
        ⟨['x'], ParamFileType.other, true⟩] [] false false).1 = [['w']] :=
  (c8_workspace_wins [⟨['p'], ParamFileType.project, true⟩]
      ⟨['w'], ParamFileType.workspace, true⟩
      [⟨['x'], ParamFileType.other, true⟩] [] [] false
      (by intro p hp; simp at hp; rw [hp]; intro h; cases h)
      rfl).1

theorem processParams_flags (params : List CmdParam) :
    ∀ (queue : List (List Char)) (hasProj hasWS : Bool),
      ((processParams params queue hasProj hasWS).2.1 ||
        (processParams params queue hasProj hasWS).2.2) =
      (hasProj || hasWS ||
        params.any (fun p => p.ft = ParamFileType.project ∨
          p.ft = ParamFileType.workspace)) := by
  induction params with
  | nil => intro queue hasProj hasWS; simp [processParams]
  | cons p rest ih =>
    intro queue hasProj hasWS
    by_cases h1 : p.ft = ParamFileType.project
    · simp only [processParams, h1, if_true, List.any_cons]
      rw [ih]
      simp [h1]
    · by_cases h2 : p.ft = ParamFileType.workspace
      · simp only [processParams, h1, h2]
        simp [h1, h2]
      · by_cases h3 : p.onDisk = true
        · have hstep : processParams (p :: rest) queue hasProj hasWS =
              processParams rest (queue ++ [p.path]) hasProj hasWS := by
            simp [processParams, h1, h2, h3]
          rw [hstep, ih]
          simp [h1, h2]
        · have hstep : processParams (p :: rest) queue hasProj hasWS =
              processParams rest queue hasProj hasWS := by
            simp [processParams, h1, h2, h3]
          rw [hstep, ih]
          simp [h1, h2]

/-- C10: after the second `ParseCmdLine` pass the batch flag is exactly
"some parameter was a project or workspace file" AND "one of `--build`,
`--rebuild`, `--clean` was given"; build switches alone never enter batch
mode. -/
theorem c10_batch_needs_project (params : List CmdParam) (build rebuild clean : Bool) :
    parseCmdLineBatch params build rebuild clean =
      (params.any (fun p => p.ft = ParamFileType.project ∨
        p.ft = ParamFileType.workspace) && (build || rebuild || clean)) := by
  unfold parseCmdLineBatch
  simp only []
  rw [processParams_flags params [] false false]
  simp

-- ### LoadDelayedFiles and the std::set of queued files (lines 1299-1347)

/-- Lexicographic comparison of strings by character, the
`std::set<wxString>` ordering (`wxString::operator<`). -/
def lexLt : List Char → List Char → Bool
  | [], [] => false
  | [], _ :: _ => true
  | _ :: _, [] => false
  | a :: as, b :: bs => if a < b then true else if b < a then false else lexLt as bs

theorem lexLt_irrefl : ∀ l : List Char, lexLt l l = false := by
  intro l
  induction l with
  | nil => rfl
  | cons a as ih => simp [lexLt, lt_irrefl, ih]

theorem lexLt_trans : ∀ l1 l2 l3 : List Char,
    lexLt l1 l2 = true → lexLt l2 l3 = true → lexLt l1 l3 = true := by
  intro l1
  induction l1 with
  | nil =>
    intro l2 l3 h12 h23
    cases l2 with
    | nil => simp [lexLt] at h12
    | cons b bs =>
      cases l3 with
      | nil => simp [lexLt] at h23
      | cons c cs => rfl
  | cons a as ih =>
    intro l2 l3 h12 h23
    cases l2 with
    | nil => simp [lexLt] at h12
    | cons b bs =>
      cases l3 with
      | nil => simp [lexLt] at h23
      | cons c cs =>
        simp only [lexLt] at h12 h23 ⊢
        by_cases hab : a < b
        · by_cases hbc : b < c
          · simp [lt_trans hab hbc]
          · by_cases hcb : c < b
            · simp [hbc, hcb] at h23
            · have hbc' : b = c := le_antisymm (le_of_not_lt hcb) (le_of_not_lt hbc)
              have hac : a < c := hbc' ▸ hab
              simp [hac]
        · by_cases hba : b < a
          · simp [hab, hba] at h12
          · have hab' : a = b := le_antisymm (le_of_not_lt hba) (le_of_not_lt hab)
            simp only [hab, hba, if_false] at h12
            by_cases hbc : b < c
            · have hac : a < c := hab' ▸ hbc
              simp [hac]
            · by_cases hcb : c < b
              · simp [hbc, hcb] at h23
              · have hbc' : b = c := le_antisymm (le_of_not_lt hcb) (le_of_not_lt hbc)
                simp only [hbc, hcb, if_false] at h23
                have hac : ¬a < c := by rw [hab', hbc']; exact lt_irrefl c
                have hca : ¬c < a := by rw [hab', hbc']; exact lt_irrefl c
                simp only [hac, hca, if_false]
                exact ih bs cs h12 h23

theorem lexLt_total : ∀ l1 l2 : List Char,
    lexLt l1 l2 = false → l1 ≠ l2 → lexLt l2 l1 = true := by
  intro l1
  induction l1 with
  | nil =>
    intro l2 h hne
    cases l2 with
    | nil => exact absurd rfl hne
    | cons b bs => simp [lexLt] at h
  | cons a as ih =>
    intro l2 h hne
    cases l2 with
    | nil => rfl
    | cons b bs =>
      simp only [lexLt] at h ⊢
      by_cases hab : a < b
      · simp [hab] at h
      · by_cases hba : b < a
        · simp [hba]
        · have hab' : a = b := le_antisymm (le_of_not_lt hba) (le_of_not_lt hab)
          simp only [hab, hba, if_false] at h
          have hne' : as ≠ bs := fun hEq => hne (by rw [hab', hEq])
          simp only [hab, hba, if_false]
          exact ih bs h hne'

/-- `std::set::insert`: keep the list sorted and without duplicates. -/
def setInsert (x : List Char) : List (List Char) → List (List Char)
  | [] => [x]
  | y :: ys =>
    if lexLt x y then x :: y :: ys
    else if x = y then y :: ys
    else y :: setInsert x ys

/-- `std::set<wxString> uniqueFilesToOpen(begin, end)`: insert every queued
file in order. -/
def stdSetOf (l : List (List Char)) : List (List Char) :=
  l.foldl (fun acc x => setInsert x acc) []

theorem mem_setInsert (z x : List Char) :
    ∀ l : List (List Char), (z ∈ setInsert x l ↔ z = x ∨ z ∈ l) := by
  intro l
  induction l with
  | nil => simp [setInsert]
  | cons y ys ih =>
    by_cases h1 : lexLt x y = true
    · simp [setInsert, h1]
    · by_cases h2 : x = y
      · subst h2
        simp only [setInsert, h1, if_false, if_pos rfl]
        constructor
        · intro h; exact Or.inr h
        · intro h
          rcases h with h | h
          · simp [h]
          · exact h
      · simp only [setInsert, h1, h2, if_false, Bool.false_eq_true]
        simp [ih]
        tauto

theorem pairwise_setInsert (x : List Char) :
    ∀ l : List (List Char), l.Pairwise (fun a b => lexLt a b = true) →
      (setInsert x l).Pairwise (fun a b => lexLt a b = true) := by
  intro l
  induction l with
  | nil => intro _; simp [setInsert]
  | cons y ys ih =>
    intro h
    rcases List.pairwise_cons.mp h with ⟨hy, hys⟩
    by_cases h1 : lexLt x y = true
    · simp only [setInsert, h1, if_true]
      refine List.pairwise_cons.mpr ⟨?_, h⟩
      intro z hz
      rcases List.mem_cons.mp hz with hz | hz
      · rwa [hz]
      · exact lexLt_trans x y z h1 (hy z hz)
    · by_cases h2 : x = y
      · subst h2
        have hstep : setInsert x (x :: ys) = x :: ys := by
          simp [setInsert, lexLt_irrefl]
        rw [hstep]
        exact h
      · simp only [setInsert, h1, h2, Bool.false_eq_true, if_false]
        refine List.pairwise_cons.mpr ⟨?_, ih hys⟩
        intro z hz
        rcases (mem_setInsert z x ys).mp hz with hz | hz
        · rw [hz]
          exact lexLt_total x y (by simpa using h1) h2
        · exact hy z hz

theorem pairwise_stdSetOf (l : List (List Char)) :
    (stdSetOf l).Pairwise (fun a b => lexLt a b = true) := by
  suffices h : ∀ acc : List (List Char),
      acc.Pairwise (fun a b => lexLt a b = true) →
      (l.foldl (fun acc x => setInsert x acc) acc).Pairwise
        (fun a b => lexLt a b = true) by
    exact h [] (by simp)
  induction l with
  | nil => intro acc hacc; simpa using hacc
  | cons p rest ih =>
    intro acc hacc
    simp only [List.foldl_cons]
    exact ih _ (pairwise_setInsert p acc hacc)

theorem nodup_stdSetOf (l : List (List Char)) : (stdSetOf l).Nodup := by
  refine (pairwise_stdSetOf l).imp ?_
  intro a b hab hEq
  rw [hEq, lexLt_irrefl] at hab
  cases hab

theorem mem_stdSetOf (p : List Char) (l : List (List Char)) :
    p ∈ stdSetOf l ↔ p ∈ l := by
  suffices h : ∀ acc : List (List Char),
      (p ∈ l.foldl (fun acc x => setInsert x acc) acc ↔ p ∈ acc ∨ p ∈ l) by
    simpa using h []
  induction l with
  | nil => intro acc; simp
  | cons q rest ih =>
    intro acc
    simp only [List.foldl_cons]
    rw [ih (setInsert q acc)]
    rw [mem_setInsert p q acc]
    simp [List.mem_cons]
    tauto

/-- The per-application state that `LoadDelayedFiles` consumes: the delayed
open queue `m_DelayedFilesToOpen` and the `--file` string `m_AutoFile`. -/
structure DelayedState where
  delayedFilesToOpen : List (List Char)
  autoFile : List Char
deriving DecidableEq, Repr

/-- The observable outcome of `CodeBlocksApp::LoadDelayedFiles` (app.cpp
lines 1299-1347): the files passed to `frame->Open` from the
`std::set` built over the queue (in set order), the `--file` open action,
and the state left behind (`m_DelayedFilesToOpen.Clear()`; `m_AutoFile` is
cleared inside the `if (!m_AutoFile.IsEmpty())` block, hence conditionally). -/
structure LoadDelayedResult where
  queueOpens : List (List Char)
  autoOpen : Option (List Char × Option Int)
  finalState : DelayedState
deriving DecidableEq, Repr

/-- `CodeBlocksApp::LoadDelayedFiles` (app.cpp lines 1299-1347). -/
def loadDelayedFiles (st : DelayedState) : LoadDelayedResult :=
  { queueOpens := stdSetOf st.delayedFilesToOpen
    autoOpen := loadAutoFileAction st.autoFile
    finalState :=
      { delayedFilesToOpen := []
        autoFile := if st.autoFile.isEmpty then st.autoFile else [] } }

/-- C9: the queue is deduplicated through a `std::set` (each distinct path
is opened at most once, and exactly the queued paths are opened), and after
the call the queue is empty and the auto-file string is empty, for every
input state. -/
theorem c9_load_delayed_files_dedup (st : DelayedState) :
    ((loadDelayedFiles st).queueOpens.Nodup)
    ∧ (∀ p, p ∈ (loadDelayedFiles st).queueOpens ↔ p ∈ st.delayedFilesToOpen)
    ∧ ((loadDelayedFiles st).finalState.delayedFilesToOpen = [])
    ∧ ((loadDelayedFiles st).finalState.autoFile = []) := by
  refine ⟨nodup_stdSetOf _, fun p => mem_stdSetOf p _, rfl, ?_⟩
  show (if st.autoFile.isEmpty then st.autoFile else []) = []
  cases h : st.autoFile with
  | nil => rfl
  | cons x t => rfl
